import Mathlib

/-!
Verification development for the MarketCycleSignal repository: a shallow
embedding of the timeframe-conversion and multi-timeframe-merge engine
(`libs/TimeframeData.py` and `libs/__TimeFrameData.py`) together with
theorems about its specified properties.

Modelling conventions:
* Timestamps are natural numbers counting minutes since an epoch that is
  aligned on period starts (the epoch is a Monday at midnight).  The pandas
  `to_period` / `resample` bucketing functions are modelled by explicit
  bucket-assignment functions `Nat → Nat`; calendar-length variation of
  months and years is abstracted to fixed-length buckets, which no claim
  depends on.
* Cell values are integers (`Int`); a missing value (pandas `NaN`) is
  `Option.none` in aggregated output.
* Python exceptions are modelled with `Except`: `ZeroDivisionError` raised by
  `to_tf // from_tf`, the two `ValueError`s of `TimeframeData.convert`,
  pandas' `KeyError` for `.agg` on a missing column, pandas' rejection of an
  invalid frequency string, `AttributeError` for calling a method on `None`,
  and `KeyError` for a `tf_priority` lookup of an unknown label.
-/

namespace MarketCycleSignal

/-- Prefix test on character lists (structural recursion, so that concrete
string computations reduce in the kernel). -/
def charsStartWith : List Char → List Char → Bool
  | _, [] => true
  | [], _ :: _ => false
  | c :: cs, p :: ps => c == p && charsStartWith cs ps

/-- Containment of the pattern in the character list at any position. -/
def charsContain : List Char → List Char → Bool
  | [], pat => pat.isEmpty
  | c :: cs, pat => charsStartWith (c :: cs) pat || charsContain cs pat

/-- Python's substring test `pat in s` on strings (both already lowercased at
call sites, mirroring the source's `col.lower()` usage). -/
def hasSub (s pat : String) : Bool :=
  charsContain s.data pat.data

/-- ASCII lowercasing of one character (`str.lower` over the ASCII column
names and labels the source manipulates). -/
def lowerChar (c : Char) : Char :=
  if 65 ≤ c.toNat && c.toNat ≤ 90 then Char.ofNat (c.toNat + 32) else c

/-- ASCII lowercasing of a string (Python `s.lower()`). -/
def strLower (s : String) : String :=
  ⟨s.data.map lowerChar⟩

/-- Python's `s.endswith(pat)`. -/
def strEndsWith (s pat : String) : Bool :=
  charsStartWith s.data.reverse pat.data.reverse

/-- Python's `s[:-1]`: the string without its last character. -/
def strDropLast (s : String) : String :=
  ⟨s.data.dropLast⟩

/-- Python's `int(s)` on a decimal literal, `none` where `int` would raise
(and pandas would reject the frequency string built from it). -/
def strToNat? (s : String) : Option Nat :=
  if s.data ≠ [] && s.data.all (fun c => 48 ≤ c.toNat && c.toNat ≤ 57) then
    some (s.data.foldl (fun n c => n * 10 + (c.toNat - 48)) 0)
  else none

/-- The pandas aggregation kinds used by the source: `'first'`, `'max'`,
`'min'`, `'last'`, `'sum'`. -/
inductive AggKind
  | afirst
  | amax
  | amin
  | alast
  | asum
deriving DecidableEq, Repr

/-- Semantics of one pandas aggregation over the values falling in one
period.  `first`/`max`/`min`/`last` of an empty group are `NaN` (`none`);
`sum` of an empty group is `0`, as in pandas. -/
def applyAgg : AggKind → List Int → Option Int
  | AggKind.afirst, vs => vs.head?
  | AggKind.amax, [] => none
  | AggKind.amax, v :: vs => some (vs.foldl max v)
  | AggKind.amin, [] => none
  | AggKind.amin, v :: vs => some (vs.foldl min v)
  | AggKind.alast, vs => vs.getLast?
  | AggKind.asum, vs => some vs.sum

/-- A raw OHLCV-style data frame: a timestamp index plus named integer
columns (`pd.DataFrame` as consumed by the source).  Well-formed frames have
strictly increasing `idx` and every column of the same length as `idx`. -/
structure Table where
  idx : List Nat
  cols : List (String × List Int)
deriving DecidableEq, Repr

/-- An aggregated / merged data frame whose cells may be missing (`NaN`):
an ordered column-name list and rows of (timestamp-or-period, cells). -/
structure OTable where
  names : List String
  rows : List (Nat × List (Option Int))
deriving DecidableEq, Repr

/-- The values of one column falling in bucket `p` of the bucketing function
`per`, in row order (the column is paired with the index before filtering,
mirroring row selection on a frame). -/
def gather (per : Nat → Nat) (p : Nat) (idx : List Nat) (vs : List Int) : List Int :=
  ((idx.zip vs).filter fun q => per q.1 == p).map Prod.snd

/-- The buckets generated by a pandas `resample`: every bucket from the one
holding the smallest timestamp up to the one holding the largest, inclusive
(resampling emits a bin for every period in that range, populated or not). -/
def binRange (per : Nat → Nat) (idx : List Nat) : List Nat :=
  match idx with
  | [] => []
  | x :: xs =>
      List.range' (per (xs.foldl Nat.min x))
        (per (xs.foldl Nat.max x) + 1 - per (xs.foldl Nat.min x))

/-- `TimeFrameData.freq_map`: user labels to pandas frequency aliases. -/
def freqMap : String → Option String
  | "day" => some "D"
  | "week" => some "W-MON"
  | "month" => some "M"
  | "year" => some "Y"
  | _ => none

/-- `TimeFrameData.tf_priority`: merge ordering of the timeframe labels;
`none` models a `KeyError` on lookup of any other label. -/
def tfPriority : String → Option Nat
  | "day" => some 1
  | "week" => some 2
  | "month" => some 3
  | "year" => some 4
  | _ => none

/-- Bucket-assignment function of a pandas frequency alias, with timestamps
in minutes (day = 1440 min, week = 10080, month and year abstracted to
fixed-length buckets).  Only the four aliases of `freqMap` ever reach this
function; the catch-all mirrors nothing in the source. -/
def perOfFreq : String → Nat → Nat
  | "D", t => t / 1440
  | "W-MON", t => t / 10080
  | "M", t => t / 43200
  | "Y", t => t / 525600
  | _, t => t / 1440

/-- The default `ohlc` argument of `TimeFrameData.toTimeframe`
(`ohlc=None` becomes `["Open", "High", "Low", "Close"]`). -/
def defaultOhlc : List String := ["Open", "High", "Low", "Close"]

/-- The `agg_dict` entry `TimeFrameData.toTimeframe` builds for a column:
a column whose lowercased name is in the lowercased `ohlc` list gets the
OHLC aggregation matching a substring of its name (or no entry at all, in
which case pandas drops the column); any other column is summed when its
name contains `"volume"` case-insensitively and takes the last value
otherwise. -/
def aggKindFor (ohlc : List String) (n : String) : Option AggKind :=
  if (ohlc.map strLower).contains (strLower n) then
    if hasSub (strLower n) "open" then some AggKind.afirst
    else if hasSub (strLower n) "high" then some AggKind.amax
    else if hasSub (strLower n) "low" then some AggKind.amin
    else if hasSub (strLower n) "close" then some AggKind.alast
    else none
  else if hasSub (strLower n) "volume" then some AggKind.asum
  else some AggKind.alast

/-- The columns of a frame that receive an `agg_dict` entry, each with its
aggregation kind (columns mapped to no entry are dropped by `.agg`). -/
def aggCols (ohlc : List String) (t : Table) : List (String × AggKind × List Int) :=
  t.cols.filterMap fun cv => (aggKindFor ohlc cv.1).map fun k => (cv.1, k, cv.2)

/-- One aggregated row of `TimeFrameData.toTimeframe` for bucket `p`: every
retained column aggregated over its values falling in the bucket. -/
def aggRow (per : Nat → Nat) (ohlc : List String) (t : Table) (p : Nat) :
    List (String × Option Int) :=
  (aggCols ohlc t).map fun x => (x.1, applyAgg x.2.1 (gather per p t.idx x.2.2))

/-- `TimeFrameData.toTimeframe`: resolve the frequency with
`freq_map.get(timeframe, "D")` (an unrecognized or `None` label silently
falls back to daily), resample with the per-column `agg_dict`, then
`dropna(how="all")` — a row is dropped only when every cell is `NaN`. -/
def toTimeframe (tf? : Option String) (ohlc : List String) (t : Table) : OTable :=
  let per := perOfFreq ((tf?.bind freqMap).getD "D")
  { names := (aggCols ohlc t).map fun x => x.1,
    rows := ((binRange per t.idx).map fun p => (p, (aggRow per ohlc t p).map Prod.snd)).filter
      fun r => r.2.any Option.isSome }

/-- The target timeframe of `TimeframeData.convert`: a Python `int`
(intraday minutes) or `str` (calendar suffix form such as `"1d"`). -/
inductive TfTarget
  | intraday (n : Int)
  | cal (s : String)
deriving DecidableEq, Repr

/-- Failures of `TimeframeData.convert` (see the module doc comment). -/
inductive ConvErr
  | zeroDivision
  | invalidConversion
  | unsupportedTimeframe
  | invalidFreq
  | missingColumn
deriving DecidableEq, Repr

/-- The fixed aggregation dictionary of `TimeframeData.convert`:
`{'Open': 'first', 'High': 'max', 'Low': 'min', 'Close': 'last',
'Volume': 'sum'}`. -/
def convertCols : List (String × AggKind) :=
  [("Open", AggKind.afirst), ("High", AggKind.amax), ("Low", AggKind.amin),
   ("Close", AggKind.alast), ("Volume", AggKind.asum)]

/-- Values of a named column of a frame (first match), empty if absent. -/
def lookupCol (t : Table) (n : String) : List Int :=
  ((t.cols.find? fun cv => cv.1 == n).map Prod.snd).getD []

/-- Minutes per calendar unit for the suffix form accepted by
`TimeframeData.convert` (`'d'`/`'w'`/`'m'`); `none` for any other string. -/
def calUnit? (s : String) : Option Nat :=
  if strEndsWith s "d" then some 1440
  else if strEndsWith s "w" then some 10080
  else if strEndsWith s "m" then some 43200
  else none

/-- The numeric multiplier in front of the calendar suffix (`"2w"` → 2,
`"d"` → 1); `none` when pandas would reject the built frequency string. -/
def calMult? (s : String) : Option Nat :=
  if strDropLast s = "" then some 1 else strToNat? (strDropLast s)

/-- The bucketing function `TimeframeData.convert` resamples with, for a
validated conversion target. -/
def convertPer : Int × TfTarget → Nat → Nat
  | (_, TfTarget.intraday n) => fun t => t / n.toNat
  | (_, TfTarget.cal s) => fun t => t / (((calUnit? s).getD 1440) * ((calMult? s).getD 1))

/-- The `resample(...).agg({...}).dropna()` tail of `TimeframeData.convert`:
requires the five OHLCV columns to exist (pandas raises `KeyError`
otherwise), aggregates each bucket, and `dropna()` with the default
`how='any'` drops every row holding at least one `NaN` cell. -/
def convertResample (per : Nat → Nat) (t : Table) : Except ConvErr OTable :=
  if convertCols.all (fun ck => t.cols.any fun cv => cv.1 == ck.1) then
    Except.ok
      { names := convertCols.map Prod.fst,
        rows := ((binRange per t.idx).map fun p =>
            (p, convertCols.map fun ck => applyAgg ck.2 (gather per p t.idx (lookupCol t ck.1)))).filter
          fun r => r.2.all Option.isSome }
  else Except.error ConvErr.missingColumn

/-- `TimeframeData.convert`: for an `int` target, `to_tf // from_tf` raises
`ZeroDivisionError` when `from_tf == 0`, then
`if factor < 1 or to_tf % from_tf != 0` raises the multiple-of
`ValueError` (Python floor division and floor modulus: `Int.fdiv`,
`Int.fmod`), then a nonpositive target makes pandas reject the `"{n}min"`
frequency; for a `str` target the `'d'`/`'w'`/`'m'` suffix is required
(`ValueError` "Unsupported higher timeframe" otherwise) and a non-numeric
multiplier prefix makes pandas reject the frequency string. -/
def convert (t : Table) : Int × TfTarget → Except ConvErr OTable
  | (fromTf, TfTarget.intraday toTf) =>
      if fromTf = 0 then Except.error ConvErr.zeroDivision
      else if Int.fdiv toTf fromTf < 1 ∨ Int.fmod toTf fromTf ≠ 0 then
        Except.error ConvErr.invalidConversion
      else if toTf ≤ 0 then Except.error ConvErr.invalidFreq
      else convertResample (convertPer (fromTf, TfTarget.intraday toTf)) t
  | (fromTf, TfTarget.cal s) =>
      match calUnit? s with
      | none => Except.error ConvErr.unsupportedTimeframe
      | some _ =>
          match calMult? s with
          | none => Except.error ConvErr.invalidFreq
          | some m =>
              if m = 0 then Except.error ConvErr.invalidFreq
              else convertResample (convertPer (fromTf, TfTarget.cal s)) t

/-- `TimeframeData.convertMany`: the dict comprehension
`{symbol: self.convert(data[symbol], conversion) for symbol in ...}` —
symbols converted in first-occurrence order, the first exception
propagating and aborting the whole comprehension. -/
def convertMany (tbl : List (String × Table)) (conv : Int × TfTarget) :
    Except ConvErr (List (String × OTable)) :=
  match tbl with
  | [] => Except.ok []
  | st :: rest =>
      match convert st.2 conv with
      | Except.error e => Except.error e
      | Except.ok o =>
          match convertMany rest conv with
          | Except.error e => Except.error e
          | Except.ok os => Except.ok ((st.1, o) :: os)

/-- The OHLCV role a column name plays in
`TimeFrameData._to_higher_tf_accurate`: the first of the substrings
`"open"`, `"high"`, `"low"`, `"close"`, `"volume"` occurring in the
lowercased name (the `if`/`elif` chain over each column). -/
inductive Role
  | ropen
  | rhigh
  | rlow
  | rclose
  | rvolume
deriving DecidableEq, Repr

/-- Role of one column name (see `Role`); `none` when no substring matches. -/
def roleOf (c : String) : Option Role :=
  if hasSub (strLower c) "open" then some Role.ropen
  else if hasSub (strLower c) "high" then some Role.rhigh
  else if hasSub (strLower c) "low" then some Role.rlow
  else if hasSub (strLower c) "close" then some Role.rclose
  else if hasSub (strLower c) "volume" then some Role.rvolume
  else none

/-- The column `ohlc_cols[r]` ends up holding after the detection loop of
`_to_higher_tf_accurate`: the last column whose role is `r` (each later
match overwrites the earlier one). -/
def detectedCol (names : List String) (r : Role) : Option String :=
  (names.filter fun c => roleOf c == some r).getLast?

/-- The cumulative aggregation applied to column `c` when building one
`row_dict` of `_to_higher_tf_accurate`: the detected open/high/low/close/
volume columns get `iloc[0]` / `max` / `min` / `iloc[-1]` / `sum`, every
other column gets `iloc[-1]` (last value so far). -/
def accAggFor (names : List String) (c : String) : AggKind :=
  if detectedCol names Role.ropen = some c then AggKind.afirst
  else if detectedCol names Role.rhigh = some c then AggKind.amax
  else if detectedCol names Role.rlow = some c then AggKind.amin
  else if detectedCol names Role.rclose = some c then AggKind.alast
  else if detectedCol names Role.rvolume = some c then AggKind.asum
  else AggKind.alast

/-- The first `n` rows of a frame. -/
def tableTake (n : Nat) (t : Table) : Table :=
  { idx := t.idx.take n, cols := t.cols.map fun cv => (cv.1, cv.2.take n) }

/-- The rows of a frame with timestamp at most `a`. -/
def tableFilterLE (a : Nat) (t : Table) : Table :=
  { idx := t.idx.filter fun ts => ts ≤ a,
    cols := t.cols.map fun cv =>
      (cv.1, ((t.idx.zip cv.2).filter fun q => q.1 ≤ a).map Prod.snd) }

/-- One output row of `_to_higher_tf_accurate`, computed from the prefix
frame `tt` ending at the row being emitted: within the bucket of the last
timestamp, the inner loop's slice `group_slice.iloc[: i+1]` is exactly the
rows of `tt` in that bucket (grouping by `to_period` keeps rows in order,
so the first `i+1` rows of the current row's group are the rows of its
period among the rows seen so far). -/
def accRowCore (per : Nat → Nat) (tt : Table) : List (String × Option Int) :=
  tt.cols.map fun cv =>
    (cv.1, applyAgg (accAggFor (tt.cols.map Prod.fst) cv.1)
      (gather per (per (tt.idx.getLastD 0)) tt.idx cv.2))

/-- The output row `_to_higher_tf_accurate` assigns at row position `i`:
the cumulative aggregate over the rows of position at most `i` lying in
row `i`'s bucket. -/
def accRow (per : Nat → Nat) (t : Table) (i : Nat) : List (String × Option Int) :=
  accRowCore per (tableTake (i + 1) t)

/-- The full output frame of `_to_higher_tf_accurate`'s row-by-row
cumulative aggregation: one row per base row, on the base index. -/
def accurateCore (per : Nat → Nat) (t : Table) : OTable :=
  { names := t.cols.map Prod.fst,
    rows := (List.range t.idx.length).map fun i =>
      (t.idx.getD i 0, (accRow per t i).map Prod.snd) }

/-- A raw frame viewed as an aggregated frame (every cell present). -/
def tableToO (t : Table) : OTable :=
  { names := t.cols.map Prod.fst,
    rows := (List.range t.idx.length).map fun i =>
      (t.idx.getD i 0, t.cols.map fun cv => some (cv.2.getD i 0)) }

/-- Failures of `TimeFrameData.mergeTimeframes` (see the module doc
comment); `attrNone` is the `AttributeError` of calling `.reindex` on
`None`, `keyError` the `tf_priority[...]` lookup failure. -/
inductive MergeErr
  | noTimeframes
  | missingBase
  | baseNone
  | attrNone
  | keyError
deriving DecidableEq, Repr

/-- `TimeFrameData._to_higher_tf_accurate` as called by the merge: looks up
`tf_priority[higher_tf]` (a `KeyError` for an unknown or `None` label),
returns the base frame unchanged for a target no coarser than a day, and
otherwise runs the cumulative re-aggregation on the bucketing of
`freq_map.get(higher_tf, "D")`. -/
def toHigherTfAccurate (tf? : Option String) (t : Table) : Except MergeErr OTable :=
  match tf?.bind tfPriority with
  | none => Except.error MergeErr.keyError
  | some pr =>
      if pr ≤ 1 then Except.ok (tableToO t)
      else Except.ok (accurateCore (perOfFreq ((tf?.bind freqMap).getD "D")) t)

/-- `TimeFrameData._rename_cols`: suffix every column name with
`_<timeframe>` (the constant `"Price"` top level of the column MultiIndex
carries no information and is left implicit). -/
def renameO (sfx : String) (o : OTable) : OTable :=
  { names := o.names.map fun n => n ++ "_" ++ sfx, rows := o.rows }

/-- Python string interpolation of the timeframe label used as the rename
suffix (`None` prints as `"None"`). -/
def sfxOf : Option String → String
  | some s => s
  | none => "None"

/-- `df.reindex(index, method="ffill")`: at each requested timestamp the
last row of `o` with timestamp at most it, or an all-`NaN` row when no such
row exists. -/
def reindexFfill (o : OTable) (idx : List Nat) : OTable :=
  { names := o.names,
    rows := idx.map fun ts =>
      (ts, ((o.rows.filter fun r => r.1 ≤ ts).getLast?).elim
        (o.names.map fun _ => (none : Option Int)) Prod.snd) }

/-- Python's `min(timeframes, key=...)` over labels already paired with
their priority: the first element attaining the minimal priority. -/
def minByPrio : List (String × Nat) → String
  | [] => ""
  | x :: xs => (xs.foldl (fun acc y => if y.2 < acc.2 then y else acc) x).1

/-- Pair every label with `tf_priority[label]`, propagating the `KeyError`
Python's `min` key function raises on the first unknown label. -/
def prioritize : List String → Except MergeErr (List (String × Nat))
  | [] => Except.ok []
  | tf :: rest =>
      match tfPriority tf with
      | none => Except.error MergeErr.keyError
      | some k => (prioritize rest).map fun l => (tf, k) :: l

/-- The base (smallest-priority) timeframe label a merge of `data` would
select, `""` when the merge would fail before selecting one. -/
def minLabel (data : List (Option Table × Option String)) : String :=
  match prioritize (data.filterMap Prod.snd) with
  | Except.ok keyed => minByPrio keyed
  | Except.error _ => ""

/-- One iteration of the merge loop over `(df_higher, tf_higher)`:
entries labelled with the base timeframe are skipped (`continue`); a
`None` LABEL (not a `None` frame — the source tests `tf_higher is None`)
triggers derivation from the base via `toTimeframe`; in fast mode the frame
is forward-fill reindexed onto the base index, so a `None` frame with a
non-`None` label hits `None.reindex(...)` (`AttributeError`); in accurate
mode the frame is recomputed from the base regardless of what was
supplied. -/
def mergeStep (fast : Bool) (baseDf : Table) (minTf : String)
    (e : Option Table × Option String) : Except MergeErr (Option OTable) :=
  if e.2 = some minTf then Except.ok none
  else if fast then
    match (if e.2 = none then some (toTimeframe e.2 defaultOhlc baseDf)
           else e.1.map tableToO) with
    | none => Except.error MergeErr.attrNone
    | some o => Except.ok (some (renameO (sfxOf e.2) (reindexFfill o baseDf.idx)))
  else
    (toHigherTfAccurate e.2 baseDf).map fun acc =>
      some (renameO (sfxOf e.2) acc)

/-- The merge loop over all entries, collecting the non-skipped renamed
contributions in order (each is outer-joined onto the result; since every
contribution is aligned to the base index the join is column
concatenation, modelled as the ordered list of contributions). -/
def mergeContribs (fast : Bool) (baseDf : Table) (minTf : String) :
    List (Option Table × Option String) → Except MergeErr (List OTable)
  | [] => Except.ok []
  | e :: rest =>
      match mergeStep fast baseDf minTf e with
      | Except.error er => Except.error er
      | Except.ok none => mergeContribs fast baseDf minTf rest
      | Except.ok (some o) => (mergeContribs fast baseDf minTf rest).map fun l => o :: l

/-- `base_list[0]` of the merge: the first entry labelled with the base
timeframe (`missingBase` mirrors the guard on an empty `base_list`,
`baseNone` the explicit check that the base frame is not `None`). -/
def pickBase (data : List (Option Table × Option String)) (minTf : String) :
    Except MergeErr Table :=
  match (data.filter fun e => e.2 == some minTf).head? with
  | none => Except.error MergeErr.missingBase
  | some (none, _) => Except.error MergeErr.baseNone
  | some (some baseDf, _) => Except.ok baseDf

/-- `TimeFrameData.mergeTimeframes`: collect the non-`None` labels, fail
with `NoTimeframes` when there are none, pair each label with its priority
(`KeyError` on an unknown label), pick the smallest-priority label, take
the first entry carrying that label as the base (failing when its frame is
`None`), then run the merge loop; the result is the renamed base followed
by the renamed contributions in entry order. -/
def mergeTimeframes (data : List (Option Table × Option String)) (fast : Bool) :
    Except MergeErr (List OTable) :=
  if (data.filterMap Prod.snd).isEmpty then Except.error MergeErr.noTimeframes
  else
    (prioritize (data.filterMap Prod.snd)).bind fun keyed =>
      (pickBase data (minByPrio keyed)).bind fun baseDf =>
        (mergeContribs fast baseDf (minByPrio keyed) data).bind fun contribs =>
          Except.ok (renameO (minByPrio keyed) (tableToO baseDf) :: contribs)

/-- Placeholder frame used as a `getD` default in indexed statements. -/
def dTable : Table := ⟨[], []⟩

/-- Placeholder aggregated frame used as a `getD` default. -/
def dOTable : OTable := ⟨[], []⟩

/-- Placeholder merge entry used as a `getD` default. -/
def dEntry : Option Table × Option String := (none, none)

/-- Five one-minute bars (the spec's end-to-end scenario for `convert`). -/
def cA : Table :=
  ⟨[0, 1, 2, 3, 4],
   [("Open", [10, 11, 12, 13, 14]), ("High", [11, 12, 13, 14, 15]),
    ("Low", [10, 11, 12, 13, 14]), ("Close", [10, 11, 12, 13, 14]),
    ("Volume", [100, 100, 100, 100, 100])]⟩

/-- A frame lacking the `Volume` column `convert`'s `agg` dictionary
requires. -/
def cB : Table :=
  ⟨[0, 1], [("Open", [1, 2]), ("High", [1, 2]), ("Low", [1, 2]), ("Close", [1, 2])]⟩

/-- Two daily rows separated by an empty day (day 0 and day 2). -/
def cGap : Table :=
  ⟨[0, 2880], [("Open", [10, 20]), ("Volume", [5, 7])]⟩

/-- Three consecutive daily OHLCV rows inside one week. -/
def cBase : Table :=
  ⟨[0, 1440, 2880],
   [("Open", [10, 11, 12]), ("High", [11, 12, 13]), ("Low", [9, 10, 11]),
    ("Close", [10, 11, 12]), ("Volume", [100, 100, 100])]⟩

/-- A pre-computed weekly frame supplied to a merge. -/
def cW : Table :=
  ⟨[0], [("Open", [10]), ("High", [13]), ("Low", [9]), ("Close", [12]), ("Volume", [300])]⟩

/-- A three-row close series. -/
def cT1 : Table := ⟨[0, 1, 2], [("Close", [10, 20, 30])]⟩

/-- `cT1` with its last (future) row modified. -/
def cT2 : Table := ⟨[0, 1, 2], [("Close", [10, 20, 99])]⟩

/-- C10: for every integer target timeframe, `convert` with
`fromTimeframe = 0` raises `ZeroDivisionError` (the floor division
`to_tf // from_tf` is evaluated before the multiple-of check) rather than
the `InvalidConversion` validation error. -/
theorem convert_fromTf_zero_zeroDivision (n : Int) (t : Table) :
    convert t (0, TfTarget.intraday n) = Except.error ConvErr.zeroDivision ∧
    convert t (0, TfTarget.intraday n) ≠ Except.error ConvErr.invalidConversion := by
  refine ⟨rfl, fun h => ?_⟩
  rw [show convert t (0, TfTarget.intraday n) = Except.error ConvErr.zeroDivision from rfl] at h
  simp at h

/-- C4: on the documented input shape `[(base, "day"), (None, "week")]` the
merge crashes in fast (default) mode — the source tests `tf_higher is None`
instead of `df_higher is None`, so the absent series is never derived and
`None.reindex(...)` raises `AttributeError` — while accurate mode succeeds
because it recomputes from the base unconditionally. -/
theorem mergeTimeframes_fast_none_series_crashes :
    mergeTimeframes [(some cBase, some "day"), (none, some "week")] true =
      Except.error MergeErr.attrNone ∧
    (mergeTimeframes [(some cBase, some "day"), (none, some "week")] false).isOk = true := by
  exact ⟨rfl, rfl⟩

/-- C5 (counterexample): a two-symbol table on which `convert` succeeds for
symbol `"A"` and fails for symbol `"B"` (its frame lacks the `Volume`
column), yet `convertMany` returns no per-symbol map at all — the first
failure aborts the whole dict comprehension. -/
theorem convertMany_no_isolation_counterexample :
    (convert cA (1, TfTarget.intraday 5)).isOk = true ∧
    convertMany [("A", cA), ("B", cB)] (1, TfTarget.intraday 5) =
      Except.error ConvErr.missingColumn := by
  exact ⟨rfl, rfl⟩

/-- C5 (amended): `convertMany` maps `convert` over every symbol with no
failure isolation — it returns a per-symbol map exactly when every symbol's
conversion succeeds, each symbol paired with its converted series, and
propagates the first error otherwise. -/
theorem convertMany_all_or_nothing (tbl : List (String × Table)) (conv : Int × TfTarget) :
    ((convertMany tbl conv).isOk = true ↔ ∀ st ∈ tbl, (convert st.2 conv).isOk = true) ∧
    (∀ res, convertMany tbl conv = Except.ok res →
      List.Forall₂ (fun (st : String × Table) (ro : String × OTable) =>
        st.1 = ro.1 ∧ convert st.2 conv = Except.ok ro.2) tbl res) := by
  induction tbl with
  | nil =>
      refine ⟨by simp [convertMany, Except.isOk, Except.toBool], fun res h => ?_⟩
      rw [show convertMany [] conv = Except.ok [] from rfl] at h
      cases h
      exact List.Forall₂.nil
  | cons st rest ih =>
      constructor
      · cases h1 : convert st.2 conv with
        | error e =>
            simp only [convertMany, h1]
            constructor
            · intro h; simp [Except.isOk, Except.toBool] at h
            · intro h
              have := h st (by simp)
              rw [h1] at this
              simp [Except.isOk, Except.toBool] at this
        | ok o =>
            cases h2 : convertMany rest conv with
            | error e =>
                simp only [convertMany, h1, h2]
                constructor
                · intro h; simp [Except.isOk, Except.toBool] at h
                · intro h
                  have hrest : ∀ st2 ∈ rest, (convert st2.2 conv).isOk = true := by
                    intro st2 hst2
                    exact h st2 (List.mem_cons_of_mem _ hst2)
                  have := ih.1.2 hrest
                  rw [h2] at this
                  simp [Except.isOk, Except.toBool] at this
            | ok os =>
                simp only [convertMany, h1, h2]
                constructor
                · intro _
                  intro st2 hst2
                  rcases List.mem_cons.mp hst2 with h | h
                  · rw [h, h1]; rfl
                  · exact ih.1.mp (by rw [h2]; rfl) st2 h
                · intro _; rfl
      · intro res h
        cases h1 : convert st.2 conv with
        | error e => rw [convertMany, h1] at h; cases h
        | ok o =>
            cases h2 : convertMany rest conv with
            | error e => rw [convertMany, h1, h2] at h; cases h
            | ok os =>
                rw [convertMany, h1, h2] at h
                cases h
                exact List.Forall₂.cons ⟨rfl, h1⟩ (ih.2 os h2)

/-- C5 (witness): the amended theorem applied to a concrete two-symbol
table on which both conversions succeed. -/
theorem convertMany_all_or_nothing_witness :
    (convertMany [("A", cA), ("X", cBase)] (1, TfTarget.intraday 5)).isOk = true :=
  (convertMany_all_or_nothing [("A", cA), ("X", cBase)] (1, TfTarget.intraday 5)).1.mpr
    (by decide)

/-- Every row kept by `convertResample` has a contributing input row: its
`Open` cell is the head of the gathered values, so an empty bucket yields a
`NaN` there and `dropna()` (any) removes the row. -/
theorem convertResample_rows_have_contributors (per : Nat → Nat) (t : Table) (res : OTable)
    (h : convertResample per t = Except.ok res) :
    ∀ pr ∈ res.rows, ∃ ts ∈ t.idx, per ts = pr.1 := by
  unfold convertResample at h
  split at h
  case isFalse => cases h
  case isTrue hcols =>
  cases h
  intro pr hpr
  have hall := List.of_mem_filter hpr
  have hmem := List.mem_of_mem_filter hpr
  rcases List.mem_map.mp hmem with ⟨p, hp, hpr_eq⟩
  subst hpr_eq
  have hopen : (applyAgg AggKind.afirst (gather per p t.idx (lookupCol t "Open"))).isSome = true := by
    have hmem2 : (("Open", AggKind.afirst) : String × AggKind) ∈ convertCols := by decide
    have hmem3 : applyAgg AggKind.afirst (gather per p t.idx (lookupCol t "Open")) ∈
        convertCols.map fun ck => applyAgg ck.2 (gather per p t.idx (lookupCol t ck.1)) :=
      List.mem_map_of_mem _ hmem2
    exact List.all_eq_true.mp hall _ hmem3
  rcases hg : gather per p t.idx (lookupCol t "Open") with _ | ⟨v, vs⟩
  · rw [hg] at hopen; simp [applyAgg] at hopen
  · have hne : ((t.idx.zip (lookupCol t "Open")).filter fun q => per q.1 == p) ≠ [] := by
      intro hemp
      unfold gather at hg
      rw [hemp] at hg
      cases hg
    rcases List.exists_mem_of_ne_nil _ hne with ⟨q, hq⟩
    have hq2 := List.mem_filter.mp hq
    refine ⟨q.1, (List.of_mem_zip hq2.1).1, ?_⟩
    show per q.1 = p
    simpa using hq2.2

/-- A successful `convert` is exactly a successful resample on the
conversion's bucketing function. -/
theorem convert_ok_resample (t : Table) (conv : Int × TfTarget) (res : OTable)
    (hok : convert t conv = Except.ok res) :
    convertResample (convertPer conv) t = Except.ok res := by
  obtain ⟨fromTf, tgt⟩ := conv
  cases tgt with
  | intraday n =>
      simp only [convert] at hok
      split at hok
      · cases hok
      split at hok
      · cases hok
      split at hok
      · cases hok
      exact hok
  | cal s =>
      simp only [convert] at hok
      split at hok
      · cases hok
      · split at hok
        · cases hok
        · split at hok
          · cases hok
          · exact hok

/-- Unfolding of the row list of `toTimeframe` (definitional). -/
theorem toTimeframe_rows (tf? : Option String) (ohlc : List String) (u : Table) :
    (toTimeframe tf? ohlc u).rows =
      ((binRange (perOfFreq ((tf?.bind freqMap).getD "D")) u.idx).map fun p =>
        (p, (aggRow (perOfFreq ((tf?.bind freqMap).getD "D")) ohlc u p).map Prod.snd)).filter
        fun r => r.2.any Option.isSome := by
  exact rfl

/-- C7 (counterexample): `toTimeframe` emits a row for the empty day 1 of
`cGap` — the `Volume` column sums to `0` there, so `dropna(how="all")`
keeps the row even though no input row contributes to that period. -/
theorem toTimeframe_emits_empty_period :
    (toTimeframe (some "day") defaultOhlc cGap).rows.map Prod.fst = [0, 1, 2] ∧
    cGap.idx.filter (fun ts => perOfFreq "D" ts == 1) = [] := by
  exact ⟨by decide, by decide⟩

/-- C7 (amended): `convert` never emits a row for a period with no
contributing input rows (its fixed OHLCV aggregation leaves `NaN` in the
`Open` cell of an empty period and `dropna()` drops any row with a `NaN`);
`toTimeframe` drops only rows whose every aggregated cell is `NaN`, so each
emitted row has at least one present cell — but a summed (volume) column is
never `NaN`, which is why the counterexample row survives there. -/
theorem convert_drops_empty_periods (t : Table) (conv : Int × TfTarget) (res : OTable)
    (hok : convert t conv = Except.ok res) :
    (∀ pr ∈ res.rows, ∃ ts ∈ t.idx, convertPer conv ts = pr.1) ∧
    (∀ (u : Table) (tf? : Option String) (ohlc : List String),
      ∀ pr ∈ (toTimeframe tf? ohlc u).rows, pr.2.any Option.isSome = true) := by
  refine ⟨convertResample_rows_have_contributors _ _ _ (convert_ok_resample t conv res hok), ?_⟩
  intro u tf? ohlc pr hpr
  rw [toTimeframe_rows] at hpr
  exact (List.mem_filter.mp hpr).2

/-- The concrete output of `convert cA (1, 5)` (the spec's end-to-end
scenario bar). -/
theorem convert_cA_value :
    convert cA (1, TfTarget.intraday 5) =
      Except.ok ⟨["Open", "High", "Low", "Close", "Volume"],
        [(0, [some 10, some 15, some 10, some 14, some 500])]⟩ := by
  exact rfl

/-- C7 (witness): the amended theorem applied to the concrete conversion
`convert cA (1, 5)` and to the `toTimeframe` output of `cGap`. -/
theorem convert_drops_empty_periods_witness :
    (∃ ts ∈ cA.idx, convertPer (1, TfTarget.intraday 5) ts = 0) ∧
    ([none, some (0 : Int)].any Option.isSome = true) := by
  have h := convert_drops_empty_periods cA (1, TfTarget.intraday 5)
    ⟨["Open", "High", "Low", "Close", "Volume"],
      [(0, [some 10, some 15, some 10, some 14, some 500])]⟩ rfl
  exact ⟨h.1 (0, [some 10, some 15, some 10, some 14, some 500]) (by decide),
    h.2 cGap (some "day") defaultOhlc (1, [none, some 0]) (by decide)⟩

/-- C8 (counterexample): `toTimeframe` does not fail on the unrecognized
label `"hour"`: `freq_map.get(timeframe, "D")` silently substitutes the
daily granularity, producing the same (non-empty) output as `"day"`. -/
theorem toTimeframe_silent_default :
    toTimeframe (some "hour") defaultOhlc cGap = toTimeframe (some "day") defaultOhlc cGap ∧
    (toTimeframe (some "hour") defaultOhlc cGap).rows ≠ [] := by
  exact ⟨by decide, by decide⟩

/-- C8 (amended): `TimeframeData.convert` fails with `UnsupportedTimeframe`
exactly for string targets ending in none of `'d'`/`'w'`/`'m'`; but
`TimeFrameData.toTimeframe` never rejects a label — an unrecognized label
silently falls back to the daily granularity. -/
theorem convert_unsupported_iff (t u : Table) (fromTf : Int) (s : String) :
    (convert t (fromTf, TfTarget.cal s) = Except.error ConvErr.unsupportedTimeframe ↔
      strEndsWith s "d" = false ∧ strEndsWith s "w" = false ∧ strEndsWith s "m" = false) ∧
    (∀ tf : String, freqMap tf = none →
      toTimeframe (some tf) defaultOhlc u = toTimeframe (some "day") defaultOhlc u) := by
  constructor
  · have hcases : ∀ m : Nat, (if m = 0 then Except.error ConvErr.invalidFreq
        else convertResample (convertPer (fromTf, TfTarget.cal s)) t) ≠
        Except.error ConvErr.unsupportedTimeframe := by
      intro m
      split
      · exact fun h => ConvErr.noConfusion (Except.error.inj h)
      · unfold convertResample
        split
        · exact fun h => Except.noConfusion h
        · exact fun h => ConvErr.noConfusion (Except.error.inj h)
    cases hu : calUnit? s with
    | none =>
        have hends : strEndsWith s "d" = false ∧ strEndsWith s "w" = false ∧
            strEndsWith s "m" = false := by
          unfold calUnit? at hu
          split_ifs at hu with h1 h2 h3
          exact ⟨by simpa using h1, by simpa using h2, by simpa using h3⟩
        simp only [convert, hu]
        exact iff_of_true trivial hends
    | some uu =>
        have hne : ¬(strEndsWith s "d" = false ∧ strEndsWith s "w" = false ∧
            strEndsWith s "m" = false) := by
          unfold calUnit? at hu
          split_ifs at hu with h1 h2 h3
          · exact fun hc => by simp [hc.1] at h1
          · exact fun hc => by simp [hc.2.1] at h2
          · exact fun hc => by simp [hc.2.2] at h3
        simp only [convert, hu]
        cases hm : calMult? s with
        | none => exact iff_of_false (fun h => ConvErr.noConfusion (Except.error.inj h)) hne
        | some m => exact iff_of_false (hcases m) hne
  · intro tf h
    unfold toTimeframe
    rw [show (some tf).bind freqMap = (none : Option String) from h,
      show (some "day").bind freqMap = some "D" from rfl]
    rfl

/-- C8 (witness): the amended theorem applied to the unrecognized string
target `"banana"` and the unrecognized label `"hour"`. -/
theorem convert_unsupported_iff_witness :
    convert cA (1, TfTarget.cal "banana") = Except.error ConvErr.unsupportedTimeframe ∧
    toTimeframe (some "hour") defaultOhlc cA = toTimeframe (some "day") defaultOhlc cA := by
  exact ⟨(convert_unsupported_iff cA cA 1 "banana").1.mpr (by decide),
    (convert_unsupported_iff cA cA 1 "banana").2 "hour" (by decide)⟩

/-- Unfolding of `convert` at an intraday target (definitional). -/
theorem convert_intraday_eq (t : Table) (fromTf toTf : Int) :
    convert t (fromTf, TfTarget.intraday toTf) =
      (if fromTf = 0 then Except.error ConvErr.zeroDivision
       else if Int.fdiv toTf fromTf < 1 ∨ Int.fmod toTf fromTf ≠ 0 then
         Except.error ConvErr.invalidConversion
       else if toTf ≤ 0 then Except.error ConvErr.invalidFreq
       else convertResample (convertPer (fromTf, TfTarget.intraday toTf)) t) := by
  exact rfl

/-- C3: for positive integer timeframes applied to a well-formed OHLCV
frame, `convert` with an intraday target succeeds iff
`to % from == 0 and to // from >= 1` (Python floor semantics: `Int.fmod`,
`Int.fdiv`), and otherwise fails with the `InvalidConversion` error. -/
theorem convert_intraday_multiple_iff (t : Table) (fromTf toTf : Int)
    (hf : 0 < fromTf) (ht : 0 < toTf)
    (hcols : (convertCols.all fun ck => t.cols.any fun cv => cv.1 == ck.1) = true) :
    ((convert t (fromTf, TfTarget.intraday toTf)).isOk = true ↔
      Int.fmod toTf fromTf = 0 ∧ 1 ≤ Int.fdiv toTf fromTf) ∧
    (¬(Int.fmod toTf fromTf = 0 ∧ 1 ≤ Int.fdiv toTf fromTf) →
      convert t (fromTf, TfTarget.intraday toTf) = Except.error ConvErr.invalidConversion) := by
  have hne : ¬(fromTf = 0) := by omega
  by_cases hc : Int.fdiv toTf fromTf < 1 ∨ Int.fmod toTf fromTf ≠ 0
  · have hres : convert t (fromTf, TfTarget.intraday toTf) =
        Except.error ConvErr.invalidConversion := by
      rw [convert_intraday_eq, if_neg hne, if_pos hc]
    refine ⟨?_, fun _ => hres⟩
    rw [hres]
    constructor
    · intro habs; simp [Except.isOk, Except.toBool] at habs
    · intro hcond
      rcases hc with h | h
      · omega
      · exact absurd hcond.1 h
  · push_neg at hc
    have hres : convert t (fromTf, TfTarget.intraday toTf) =
        Except.ok
          { names := convertCols.map Prod.fst,
            rows := ((binRange (convertPer (fromTf, TfTarget.intraday toTf)) t.idx).map fun p =>
                (p, convertCols.map fun ck =>
                  applyAgg ck.2 (gather (convertPer (fromTf, TfTarget.intraday toTf)) p t.idx
                    (lookupCol t ck.1)))).filter
              fun r => r.2.all Option.isSome } := by
      rw [convert_intraday_eq, if_neg hne, if_neg (by push_neg; exact hc), if_neg (by omega)]
      unfold convertResample
      rw [if_pos hcols]
    refine ⟨?_, fun habs => absurd ⟨hc.2, hc.1⟩ habs⟩
    rw [hres]
    exact ⟨fun _ => ⟨hc.2, hc.1⟩, fun _ => rfl⟩

/-- C3 (witness): the spec's own examples — `(1 → 15)` succeeds and
`(5 → 12)` fails with the multiple-of validation error. -/
theorem convert_intraday_multiple_iff_witness :
    (convert cA (1, TfTarget.intraday 15)).isOk = true ∧
    convert cA (5, TfTarget.intraday 12) = Except.error ConvErr.invalidConversion := by
  exact ⟨(convert_intraday_multiple_iff cA 1 15 (by decide) (by decide) (by decide)).1.mpr
      (by decide),
    (convert_intraday_multiple_iff cA 5 12 (by decide) (by decide) (by decide)).2 (by decide)⟩

/-- The second components of a zip form the prefix of the second list cut
at the first list's length. -/
theorem zip_map_snd_take (l1 : List Nat) (l2 : List Int) :
    (l1.zip l2).map Prod.snd = l2.take l1.length := by
  induction l1 generalizing l2 with
  | nil => simp
  | cons x xs ih =>
      cases l2 with
      | nil => simp
      | cons v vt => simp [List.zip_cons_cons, ih]

/-- On a strictly increasing index, keeping the timestamps at most the
`i`-th one keeps exactly the first `i + 1` entries. -/
theorem filter_le_getD_eq_take (idx : List Nat) (i : Nat) (hi : i < idx.length)
    (hs : idx.Pairwise (· < ·)) :
    (idx.filter fun ts => ts ≤ idx.getD i 0) = idx.take (i + 1) := by
  induction idx generalizing i with
  | nil => simp at hi
  | cons x xs ih =>
      rcases List.pairwise_cons.mp hs with ⟨hx, hxs⟩
      cases i with
      | zero =>
          rw [show (x :: xs).getD 0 0 = x from rfl, List.take_succ_cons, List.take_zero]
          rw [List.filter_cons_of_pos (by simp)]
          rw [List.filter_eq_nil_iff.mpr fun a ha => by simpa using Nat.not_le.mpr (hx a ha)]
      | succ j =>
          have hj : j < xs.length := by simpa using hi
          have hget : (x :: xs).getD (j + 1) 0 = xs.getD j 0 := rfl
          rw [hget, List.take_succ_cons]
          rw [List.filter_cons_of_pos]
          · rw [ih j hj hxs]
          · have hmem : xs.getD j 0 ∈ xs := by
              rw [List.getD_eq_getElem xs 0 hj]
              exact List.getElem_mem hj
            simpa using Nat.le_of_lt (hx _ hmem)

/-- Same statement for the zipped (timestamp, value) pairs of a column. -/
theorem zip_filter_le_eq_take (idx : List Nat) (vs : List Int) (i : Nat)
    (hi : i < idx.length) (hs : idx.Pairwise (· < ·)) :
    ((idx.zip vs).filter fun q => q.1 ≤ idx.getD i 0) = (idx.zip vs).take (i + 1) := by
  induction idx generalizing vs i with
  | nil => simp at hi
  | cons x xs ih =>
      rcases List.pairwise_cons.mp hs with ⟨hx, hxs⟩
      cases vs with
      | nil => simp
      | cons v vt =>
          cases i with
          | zero =>
              rw [show (x :: xs).getD 0 0 = x from rfl, List.zip_cons_cons,
                List.take_succ_cons, List.take_zero]
              rw [List.filter_cons_of_pos (by simp)]
              rw [List.filter_eq_nil_iff.mpr
                fun q hq => by simpa using Nat.not_le.mpr (hx _ (List.of_mem_zip hq).1)]
          | succ j =>
              have hj : j < xs.length := by simpa using hi
              have hget : (x :: xs).getD (j + 1) 0 = xs.getD j 0 := rfl
              rw [hget, List.zip_cons_cons, List.take_succ_cons]
              rw [List.filter_cons_of_pos]
              · rw [ih vt j hj hxs]
              · have hmem : xs.getD j 0 ∈ xs := by
                  rw [List.getD_eq_getElem xs 0 hj]
                  exact List.getElem_mem hj
                simpa using Nat.le_of_lt (hx _ hmem)

/-- The timestamp-cutoff view of a frame at its `i`-th timestamp is the
positional prefix of the first `i + 1` rows, on a strictly increasing
index. -/
theorem tableFilterLE_eq_tableTake (t : Table) (i : Nat) (hi : i < t.idx.length)
    (hs : t.idx.Pairwise (· < ·)) :
    tableFilterLE (t.idx.getD i 0) t = tableTake (i + 1) t := by
  unfold tableFilterLE tableTake
  refine congrArg₂ Table.mk (filter_le_getD_eq_take t.idx i hi hs) ?_
  refine List.map_congr_left ?_
  intro cv _
  refine congrArg (Prod.mk cv.1) ?_
  rw [zip_filter_le_eq_take t.idx cv.2 i hi hs, List.map_take, zip_map_snd_take,
    List.take_take]
  congr 1
  omega

/-- C1: no look-ahead in the accurate re-aggregation — on strictly
increasing indices, the output row it assigns at a timestamp is a function
of only the rows with timestamp at most that one: two base frames that
agree on those rows (any future row modified, removed or added) get the
same output row there, for every coarse bucketing function. -/
theorem acc_no_lookahead (per : Nat → Nat) (t1 t2 : Table) (i1 i2 : Nat)
    (h1 : i1 < t1.idx.length) (h2 : i2 < t2.idx.length)
    (hs1 : t1.idx.Pairwise (· < ·)) (hs2 : t2.idx.Pairwise (· < ·))
    (hts : t1.idx.getD i1 0 = t2.idx.getD i2 0)
    (hle : tableFilterLE (t1.idx.getD i1 0) t1 = tableFilterLE (t1.idx.getD i1 0) t2) :
    accRow per t1 i1 = accRow per t2 i2 := by
  have e1 := tableFilterLE_eq_tableTake t1 i1 h1 hs1
  have e2 : tableFilterLE (t1.idx.getD i1 0) t2 = tableTake (i2 + 1) t2 := by
    rw [hts]
    exact tableFilterLE_eq_tableTake t2 i2 h2 hs2
  have e3 : tableTake (i1 + 1) t1 = tableTake (i2 + 1) t2 := by
    rw [← e1, ← e2, hle]
  unfold accRow
  rw [e3]

/-- C1 (witness): the theorem applied to two concrete frames that agree up
to timestamp 1 and differ at the future timestamp 2. -/
theorem acc_no_lookahead_witness :
    accRow (perOfFreq "D") cT1 1 = accRow (perOfFreq "D") cT2 1 :=
  acc_no_lookahead (perOfFreq "D") cT1 cT2 1 1 (by decide) (by decide) (by decide)
    (by decide) (by decide) (by decide)

/-- Projections of `tableTake` (definitional). -/
theorem tableTake_idx (n : Nat) (t : Table) : (tableTake n t).idx = t.idx.take n := by
  exact rfl

/-- Column projection of `tableTake` (definitional). -/
theorem tableTake_cols (n : Nat) (t : Table) :
    (tableTake n t).cols = t.cols.map fun cv => (cv.1, cv.2.take n) := by
  exact rfl

/-- The last entry of the prefix of length `i + 1` is the `i`-th entry. -/
theorem getLastD_take_succ (l : List Nat) (i : Nat) (d : Nat) (hi : i < l.length) :
    (l.take (i + 1)).getLastD d = l.getD i 0 := by
  induction l generalizing i d with
  | nil => simp at hi
  | cons x xs ih =>
      cases i with
      | zero => simp [List.getD]
      | succ j =>
          have hj : j < xs.length := by simpa using hi
          rw [List.take_succ_cons, List.getLastD_cons]
          rw [ih j x hj]
          simp [List.getD]

/-- Any of the five pandas aggregations of a one-element group is that
element's value. -/
theorem applyAgg_singleton (k : AggKind) (v : Int) : applyAgg k [v] = some v := by
  cases k <;> simp [applyAgg]

/-- Gathering the bucket of row `i` over the first `i + 1` rows yields only
row `i`'s value when no earlier row shares its bucket. -/
theorem gather_singleton (per : Nat → Nat) (idx : List Nat) (vs : List Int) (i : Nat)
    (hi : i < idx.length) (hlen : vs.length = idx.length)
    (hfirst : ∀ j, j < i → per (idx.getD j 0) ≠ per (idx.getD i 0)) :
    gather per (per (idx.getD i 0)) (idx.take (i + 1)) (vs.take (i + 1)) =
      [vs.getD i 0] := by
  induction idx generalizing vs i with
  | nil => simp at hi
  | cons x xs ih =>
      cases vs with
      | nil => simp at hlen
      | cons v vt =>
          cases i with
          | zero =>
              simp [gather, List.getD]
          | succ j =>
              have hj : j < xs.length := by simpa using hi
              have hlen2 : vt.length = xs.length := by simpa using hlen
              have hget : (x :: xs).getD (j + 1) 0 = xs.getD j 0 := by
                simp [List.getD]
              have hget2 : (v :: vt).getD (j + 1) 0 = vt.getD j 0 := by
                simp [List.getD]
              rw [hget, hget2, List.take_succ_cons, List.take_succ_cons]
              have hx0 : per x ≠ per (xs.getD j 0) := by
                have := hfirst 0 (Nat.succ_pos j)
                simpa [List.getD] using this
              unfold gather
              rw [List.zip_cons_cons, List.filter_cons_of_neg (by simpa using hx0)]
              have := ih vt j hj hlen2 ?_
              · unfold gather at this
                exact this
              · intro j2 hj2
                have := hfirst (j2 + 1) (by omega)
                simpa [List.getD] using this

/-- C9: the running state of the accurate re-aggregation never leaks
across coarse periods — at the first base row of a coarse period the
output row equals that row's own values in every column, whatever the
contents of all earlier periods. -/
theorem acc_period_first_row (per : Nat → Nat) (t : Table) (i : Nat)
    (hi : i < t.idx.length)
    (hw : ∀ cv ∈ t.cols, cv.2.length = t.idx.length)
    (hfirst : ∀ j, j < i → per (t.idx.getD j 0) ≠ per (t.idx.getD i 0)) :
    accRow per t i = t.cols.map fun cv => (cv.1, some (cv.2.getD i 0)) := by
  unfold accRow accRowCore
  simp only [tableTake_idx, tableTake_cols, List.map_map]
  have hnames : ((t.cols.map fun cv => (cv.1, cv.2.take (i + 1))).map Prod.fst) =
      t.cols.map Prod.fst := by
    rw [List.map_map]
    exact List.map_congr_left fun cv _ => rfl
  have hlast : (t.idx.take (i + 1)).getLastD 0 = t.idx.getD i 0 :=
    getLastD_take_succ t.idx i 0 hi
  simp only [hnames, hlast]
  refine List.map_congr_left ?_
  intro cv hcv
  show (cv.1, applyAgg (accAggFor (t.cols.map Prod.fst) cv.1)
      (gather per (per (t.idx.getD i 0)) (t.idx.take (i + 1)) (cv.2.take (i + 1)))) =
    (cv.1, some (cv.2.getD i 0))
  rw [gather_singleton per t.idx cv.2 i hi (hw cv hcv) hfirst, applyAgg_singleton]

/-- C9 (witness): the theorem applied to `cBase` at its second row, the
first row of day 1. -/
theorem acc_period_first_row_witness :
    accRow (perOfFreq "D") cBase 1 = cBase.cols.map fun cv => (cv.1, some (cv.2.getD 1 0)) :=
  acc_period_first_row (perOfFreq "D") cBase 1 (by decide) (by decide) (by decide)

/-- The left fold of `max` over a list starting at `a` is one of the
elements. -/
theorem foldl_max_mem (l : List Int) (a : Int) : l.foldl max a ∈ a :: l := by
  induction l generalizing a with
  | nil => simp
  | cons b bs ih =>
      rw [List.foldl_cons]
      rcases List.mem_cons.mp (ih (max a b)) with h1 | h1
      · rcases max_choice a b with hm | hm
        · rw [h1, hm]; exact List.mem_cons_self _ _
        · rw [h1, hm]; exact List.mem_cons_of_mem _ (List.mem_cons_self _ _)
      · exact List.mem_cons_of_mem _ (List.mem_cons_of_mem _ h1)

/-- The left fold of `max` bounds every element from above. -/
theorem le_foldl_max (l : List Int) (a : Int) : ∀ x ∈ a :: l, x ≤ l.foldl max a := by
  induction l generalizing a with
  | nil =>
      intro x hx
      simp only [List.mem_singleton] at hx
      simp [hx]
  | cons b bs ih =>
      intro x hx
      rw [List.foldl_cons]
      rcases List.mem_cons.mp hx with h1 | h1
      · rw [h1]
        exact le_trans (le_max_left a b) (ih (max a b) _ (List.mem_cons_self _ _))
      · rcases List.mem_cons.mp h1 with h2 | h2
        · rw [h2]
          exact le_trans (le_max_right a b) (ih (max a b) _ (List.mem_cons_self _ _))
        · exact ih (max a b) x (List.mem_cons_of_mem _ h2)

/-- The left fold of `min` over a list starting at `a` is one of the
elements. -/
theorem foldl_min_mem (l : List Int) (a : Int) : l.foldl min a ∈ a :: l := by
  induction l generalizing a with
  | nil => simp
  | cons b bs ih =>
      rw [List.foldl_cons]
      rcases List.mem_cons.mp (ih (min a b)) with h1 | h1
      · rcases min_choice a b with hm | hm
        · rw [h1, hm]; exact List.mem_cons_self _ _
        · rw [h1, hm]; exact List.mem_cons_of_mem _ (List.mem_cons_self _ _)
      · exact List.mem_cons_of_mem _ (List.mem_cons_of_mem _ h1)

/-- The left fold of `min` bounds every element from below. -/
theorem foldl_min_le (l : List Int) (a : Int) : ∀ x ∈ a :: l, l.foldl min a ≤ x := by
  induction l generalizing a with
  | nil =>
      intro x hx
      simp only [List.mem_singleton] at hx
      simp [hx]
  | cons b bs ih =>
      intro x hx
      rw [List.foldl_cons]
      rcases List.mem_cons.mp hx with h1 | h1
      · rw [h1]
        exact le_trans (ih (min a b) _ (List.mem_cons_self _ _)) (min_le_left a b)
      · rcases List.mem_cons.mp h1 with h2 | h2
        · rw [h2]
          exact le_trans (ih (min a b) _ (List.mem_cons_self _ _)) (min_le_right a b)
        · exact ih (min a b) x (List.mem_cons_of_mem _ h2)

/-- C2: the per-period aggregation rules of the `agg_dict` built by
`toTimeframe` (with the default OHLC list), for a period gathering the
non-empty value list `r1 :: rest` of a column in timestamp order: an
`Open`-named column takes the first value `r1`, `High` the maximum, `Low`
the minimum, `Close` the last value, `Volume` the sum, and every column
not named (case-insensitively) open/high/low/close is summed when its name
contains `"volume"` case-insensitively and takes the last value otherwise;
the aggregated cell for the column appears in the period's aggregated
row. -/
theorem aggregation_rules (t : Table) (per : Nat → Nat) (p : Nat) (n : String)
    (vals : List Int) (hcol : (n, vals) ∈ t.cols) (r1 : Int) (rest : List Int)
    (hg : gather per p t.idx vals = r1 :: rest) :
    (strLower n = "open" →
      (aggKindFor defaultOhlc n).map (fun k => applyAgg k (r1 :: rest)) = some (some r1)) ∧
    (strLower n = "high" →
      ∃ m, (aggKindFor defaultOhlc n).map (fun k => applyAgg k (r1 :: rest)) = some (some m) ∧
        m ∈ r1 :: rest ∧ ∀ x ∈ r1 :: rest, x ≤ m) ∧
    (strLower n = "low" →
      ∃ m, (aggKindFor defaultOhlc n).map (fun k => applyAgg k (r1 :: rest)) = some (some m) ∧
        m ∈ r1 :: rest ∧ ∀ x ∈ r1 :: rest, m ≤ x) ∧
    (strLower n = "close" →
      (aggKindFor defaultOhlc n).map (fun k => applyAgg k (r1 :: rest)) =
        some (some (rest.getLastD r1))) ∧
    (strLower n = "volume" →
      (aggKindFor defaultOhlc n).map (fun k => applyAgg k (r1 :: rest)) =
        some (some (r1 + rest.sum))) ∧
    (strLower n ∉ (["open", "high", "low", "close"] : List String) →
      (aggKindFor defaultOhlc n).map (fun k => applyAgg k (r1 :: rest)) =
        some (if hasSub (strLower n) "volume" = true then some (r1 + rest.sum)
          else some (rest.getLastD r1))) ∧
    (∀ k, aggKindFor defaultOhlc n = some k →
      (n, applyAgg k (r1 :: rest)) ∈ aggRow per defaultOhlc t p) := by
  refine ⟨?_, ?_, ?_, ?_, ?_, ?_, ?_⟩
  · intro hn
    have hk : aggKindFor defaultOhlc n = some AggKind.afirst := by
      unfold aggKindFor
      rw [hn]
      decide
    rw [hk]
    simp [applyAgg]
  · intro hn
    have hk : aggKindFor defaultOhlc n = some AggKind.amax := by
      unfold aggKindFor
      rw [hn]
      decide
    refine ⟨rest.foldl max r1, ?_, foldl_max_mem rest r1, le_foldl_max rest r1⟩
    rw [hk]
    simp [applyAgg]
  · intro hn
    have hk : aggKindFor defaultOhlc n = some AggKind.amin := by
      unfold aggKindFor
      rw [hn]
      decide
    refine ⟨rest.foldl min r1, ?_, foldl_min_mem rest r1, foldl_min_le rest r1⟩
    rw [hk]
    simp [applyAgg]
  · intro hn
    have hk : aggKindFor defaultOhlc n = some AggKind.alast := by
      unfold aggKindFor
      rw [hn]
      decide
    rw [hk]
    simp [applyAgg, List.getLast?_cons, List.getLastD_eq_getLast?]
  · intro hn
    have hk : aggKindFor defaultOhlc n = some AggKind.asum := by
      unfold aggKindFor
      rw [hn]
      decide
    rw [hk]
    simp [applyAgg]
  · intro hnot
    have hcont : ((defaultOhlc.map strLower).contains (strLower n)) = false := by
      have hd : defaultOhlc.map strLower = ["open", "high", "low", "close"] := by decide
      rw [hd]
      simpa using hnot
    have hk : aggKindFor defaultOhlc n =
        (if hasSub (strLower n) "volume" = true then some AggKind.asum
         else some AggKind.alast) := by
      unfold aggKindFor
      rw [if_neg (by rw [hcont]; simp)]
    rw [hk]
    by_cases hv : hasSub (strLower n) "volume" = true
    · rw [if_pos hv, if_pos hv]
      simp [applyAgg]
    · rw [if_neg hv, if_neg hv]
      simp [applyAgg, List.getLast?_cons, List.getLastD_eq_getLast?]
  · intro k hk
    unfold aggRow
    refine List.mem_map.mpr ⟨(n, k, vals), ?_, ?_⟩
    · unfold aggCols
      refine List.mem_filterMap.mpr ⟨(n, vals), hcol, ?_⟩
      rw [hk]
      rfl
    · show (n, applyAgg k (gather per p t.idx vals)) = (n, applyAgg k (r1 :: rest))
      rw [hg]

/-- C2 (witness): the rules applied to the `Open` column of `cBase` over
its single weekly period, whose gathered values are `[10, 11, 12]`. -/
theorem aggregation_rules_witness :
    (aggKindFor defaultOhlc "Open").map (fun k => applyAgg k (10 :: [11, 12])) =
      some (some 10) ∧
    (aggKindFor defaultOhlc "Volume").map (fun k => applyAgg k (100 :: [100, 100])) =
      some (some (100 + ([100, 100] : List Int).sum)) := by
  refine ⟨?_, ?_⟩
  · exact (aggregation_rules cBase (perOfFreq "W-MON") 0 "Open" [10, 11, 12] (by decide)
      10 [11, 12] (by decide)).1 (by decide)
  · exact (aggregation_rules cBase (perOfFreq "W-MON") 0 "Volume" [100, 100, 100] (by decide)
      100 [100, 100] (by decide)).2.2.2.2.1 (by decide)

/-- Congruence of `Except.bind` in the continuation, needing agreement
only at the actually produced value. -/
theorem except_bind_congr2 {ε α β : Type} {e : Except ε α} {f g : α → Except ε β}
    (h : ∀ a, e = Except.ok a → f a = g a) : e.bind f = e.bind g := by
  cases he : e with
  | error err => rfl
  | ok a => exact h a he

/-- Lists with equal label projections have equal collected label lists. -/
theorem filterMap_snd_congr (d1 d2 : List (Option Table × Option String))
    (h : d1.map Prod.snd = d2.map Prod.snd) :
    d1.filterMap Prod.snd = d2.filterMap Prod.snd := by
  have e1 : d1.filterMap Prod.snd = (d1.map Prod.snd).filterMap id := by
    rw [List.filterMap_map]
    rfl
  have e2 : d2.filterMap Prod.snd = (d2.map Prod.snd).filterMap id := by
    rw [List.filterMap_map]
    rfl
  rw [e1, e2, h]

/-- The first entry carrying a label is the same in two entry lists with
equal labels whose series agree wherever the label is the requested one. -/
theorem head_filter_label : ∀ (d1 d2 : List (Option Table × Option String)) (m : String),
    d1.map Prod.snd = d2.map Prod.snd →
    (∀ i, i < d1.length → (d1.getD i dEntry).2 = some m →
      (d1.getD i dEntry).1 = (d2.getD i dEntry).1) →
    (d1.filter fun e => e.2 == some m).head? = (d2.filter fun e => e.2 == some m).head?
  | [], [], _, _, _ => rfl
  | [], _ :: _, _, h, _ => by simp at h
  | _ :: _, [], _, h, _ => by simp at h
  | a :: as, b :: bs, m, hsnd, hbase => by
      obtain ⟨h1, h2⟩ : a.2 = b.2 ∧ as.map Prod.snd = bs.map Prod.snd := by simpa using hsnd
      by_cases hm : a.2 = some m
      · rw [List.filter_cons_of_pos (by simp [hm]),
          List.filter_cons_of_pos (by simp [← h1, hm])]
        have ha1 : a.1 = b.1 := hbase 0 (by simp) hm
        rw [List.head?_cons, List.head?_cons, Prod.ext ha1 h1]
      · rw [List.filter_cons_of_neg (by simp [hm]),
          List.filter_cons_of_neg (by simp [← h1, hm])]
        refine head_filter_label as bs m h2 ?_
        intro i hi hlab
        exact hbase (i + 1) (by simpa using Nat.succ_lt_succ hi) hlab

/-- In accurate mode the merge loop body never reads the supplied series of
an entry: it either skips the entry or recomputes from the base frame. -/
theorem mergeStep_false_ignores_fst (b : Table) (m : String) (a1 a2 : Option Table)
    (s : Option String) : mergeStep false b m (a1, s) = mergeStep false b m (a2, s) := by
  exact rfl

/-- The accurate-mode merge loop depends only on the entries' labels. -/
theorem mergeContribs_congr (b : Table) (m : String) :
    ∀ (d1 d2 : List (Option Table × Option String)),
      d1.map Prod.snd = d2.map Prod.snd →
      mergeContribs false b m d1 = mergeContribs false b m d2
  | [], [], _ => rfl
  | [], _ :: _, h => by simp at h
  | _ :: _, [], h => by simp at h
  | a :: as, b2 :: bs, h => by
      obtain ⟨h1, h2⟩ : a.2 = b2.2 ∧ as.map Prod.snd = bs.map Prod.snd := by simpa using h
      have hstep : mergeStep false b m a = mergeStep false b m b2 := by
        calc mergeStep false b m a = mergeStep false b m (a.1, a.2) := rfl
          _ = mergeStep false b m (b2.1, a.2) := mergeStep_false_ignores_fst b m a.1 b2.1 a.2
          _ = mergeStep false b m (b2.1, b2.2) := by rw [h1]
          _ = mergeStep false b m b2 := rfl
      have ea : mergeContribs false b m (a :: as) =
          match mergeStep false b m a with
          | Except.error er => Except.error er
          | Except.ok none => mergeContribs false b m as
          | Except.ok (some o) => (mergeContribs false b m as).map fun l => o :: l := rfl
      have eb : mergeContribs false b m (b2 :: bs) =
          match mergeStep false b m b2 with
          | Except.error er => Except.error er
          | Except.ok none => mergeContribs false b m bs
          | Except.ok (some o) => (mergeContribs false b m bs).map fun l => o :: l := rfl
      rw [ea, eb, hstep, mergeContribs_congr b m as bs h2]

/-- C6: accurate mode ignores supplied series — two merge calls whose
entry lists carry the same labels and the same series at the base-labelled
entries produce identical results in accurate mode, whatever series (or
absence) the coarser entries supply: every coarser column is a function of
the base series only. -/
theorem merge_accurate_ignores_supplied (d1 d2 : List (Option Table × Option String))
    (hsnd : d1.map Prod.snd = d2.map Prod.snd)
    (hbase : ∀ i, i < d1.length → (d1.getD i dEntry).2 = some (minLabel d1) →
      (d1.getD i dEntry).1 = (d2.getD i dEntry).1) :
    mergeTimeframes d1 false = mergeTimeframes d2 false := by
  have hfm : d1.filterMap Prod.snd = d2.filterMap Prod.snd := filterMap_snd_congr d1 d2 hsnd
  unfold mergeTimeframes
  rw [← hfm]
  by_cases hemp : ((d1.filterMap Prod.snd).isEmpty : Bool) = true
  · rw [if_pos hemp, if_pos hemp]
  · rw [if_neg hemp, if_neg hemp]
    refine except_bind_congr2 ?_
    intro keyed hk
    have hmin : minLabel d1 = minByPrio keyed := by
      unfold minLabel
      rw [hk]
    have hhead : (d1.filter fun e => e.2 == some (minByPrio keyed)).head? =
        (d2.filter fun e => e.2 == some (minByPrio keyed)).head? := by
      refine head_filter_label d1 d2 (minByPrio keyed) hsnd ?_
      rw [← hmin]
      exact hbase
    have hpb : pickBase d1 (minByPrio keyed) = pickBase d2 (minByPrio keyed) := by
      unfold pickBase
      rw [hhead]
    rw [hpb]
    refine except_bind_congr2 ?_
    intro baseDf _
    rw [mergeContribs_congr baseDf (minByPrio keyed) d1 d2 hsnd]

/-- C6 (witness): the theorem applied to a concrete merge where the weekly
entry is supplied pre-computed in one call and absent in the other. -/
theorem merge_accurate_ignores_supplied_witness :
    mergeTimeframes [(some cBase, some "day"), (some cW, some "week")] false =
      mergeTimeframes [(some cBase, some "day"), (none, some "week")] false :=
  merge_accurate_ignores_supplied
    [(some cBase, some "day"), (some cW, some "week")]
    [(some cBase, some "day"), (none, some "week")]
    (by decide) (by decide)

end MarketCycleSignal
